import Mathlib

/-!
Verification of the simplemli Message Length Indicator codec.

The Go package exposes two functions, `Decode(key, b)` and `Encode(key, length)`,
dispatching on a string selector over seven MLI variants (2I, 2E, 4I, 4E, 2EE,
2BCD2, A4E).  We embed both functions shallowly: Go byte slices become lists of
naturals (each byte a value < 256), the Go `int` becomes `Int`, and the
`(value, error)` return pairs become `Except MLIErr _`.  The helper functions
below model the pieces of the Go standard library the source uses:
`binary.BigEndian.Uint16/Uint32` and `PutUint16/PutUint32`, `hex.EncodeToString`
and `hex.DecodeString`, `strconv.Atoi`, `bytes.Count`, and `fmt.Sprintf`
with the verbs `%04d` and `%X`.
-/

namespace SimpleMLI

/-- Byte buffers: each element is a byte value (0..255). -/
abbrev Bytes := List Nat

/-- The error values of the package.  `byteSize` is `ErrByteSize`, `length` is
`ErrLength`, `convert` stands for the wrapped `strconv`/`hex` conversion errors
produced with `fmt.Errorf` in the decode paths, `encodeFormat` for the wrapped
hex error in the 2BCD2 encode path, and `invalidType` for the
"Invalid MLI type provided" error. -/
inductive MLIErr where
  | byteSize
  | length
  | convert
  | encodeFormat
  | invalidType
deriving DecidableEq, Repr

/-- MLI sizes in bytes (the `Size*` constants). -/
def Size2I : Nat := 2
def Size2E : Nat := 2
def Size4I : Nat := 4
def Size4E : Nat := 4
def Size2EE : Nat := 2
def Size2BCD2 : Nat := 4
def SizeA4E : Nat := 4

/-- Selector keys (the `MLI*` string constants). -/
def MLI2I : String := "2I"
def MLI2E : String := "2E"
def MLI4I : String := "4I"
def MLI4E : String := "4E"
def MLI2EE : String := "2EE"
def MLI2BCD2 : String := "2BCD2"
def MLIA4E : String := "A4E"

/-- `binary.BigEndian.Uint16` / `Uint32`: big-endian value of a byte list
(the source always calls it on a buffer whose length was just checked). -/
def beNat (b : Bytes) : Nat :=
  b.foldl (fun acc x => acc * 256 + x) 0

/-- `binary.BigEndian.PutUint16` after Go's `uint16(·)` conversion of an `int`:
the low 16 bits, written big-endian into a fresh 2-byte slice. -/
def putUint16 (n : Int) : Bytes :=
  let m := (n % 65536).toNat
  [m / 256, m % 256]

/-- `binary.BigEndian.PutUint32` after Go's `uint32(·)` conversion of an `int`:
the low 32 bits, written big-endian into a fresh 4-byte slice. -/
def putUint32 (n : Int) : Bytes :=
  let m := (n % 4294967296).toNat
  [m / 16777216, m / 65536 % 256, m / 256 % 256, m % 256]

/-- Lower-case hex digit character for a nibble, as in `hex.EncodeToString`. -/
def hexCharLower (n : Nat) : Nat :=
  if n < 10 then 48 + n else 87 + n

/-- Upper-case hex digit character for a nibble, as in `fmt.Sprintf` `%X`. -/
def hexCharUpper (n : Nat) : Nat :=
  if n < 10 then 48 + n else 55 + n

/-- `hex.EncodeToString`: two lower-case hex characters per byte. -/
def hexEncode (b : Bytes) : List Nat :=
  b.foldr (fun x acc => hexCharLower (x / 16) :: hexCharLower (x % 16) :: acc) []

/-- `fmt.Sprintf` with verb `%X` on a string: two upper-case hex characters
per byte of the string. -/
def hexEncUpper (b : Bytes) : List Nat :=
  b.foldr (fun x acc => hexCharUpper (x / 16) :: hexCharUpper (x % 16) :: acc) []

/-- Value of a hex digit character, as accepted by `hex.DecodeString`. -/
def hexDigitVal (c : Nat) : Option Nat :=
  if 48 ≤ c ∧ c ≤ 57 then some (c - 48)
  else if 97 ≤ c ∧ c ≤ 102 then some (c - 87)
  else if 65 ≤ c ∧ c ≤ 70 then some (c - 55)
  else none

/-- The bytes `hex.DecodeString` produces: pairs of hex characters decoded
greedily until the input is exhausted or malformed (Go returns the bytes
decoded before any error). -/
def hexDecodeBytes : List Nat → Bytes
  | [] => []
  | [_] => []
  | c1 :: c2 :: rest =>
    match hexDigitVal c1, hexDigitVal c2 with
    | some a, some b => (16 * a + b) :: hexDecodeBytes rest
    | _, _ => []

/-- Whether `hex.DecodeString` succeeds without error: the string has even
length and every character is a hex digit. -/
def hexValid : List Nat → Bool
  | [] => true
  | [_] => false
  | c1 :: c2 :: rest => (hexDigitVal c1).isSome && (hexDigitVal c2).isSome && hexValid rest

/-- ASCII decimal digit character test ('0'..'9'). -/
def isDigitChar (c : Nat) : Bool :=
  48 ≤ c && c ≤ 57

/-- Base-10 value of a list of ASCII digit characters. -/
def parseDigits (cs : List Nat) : Nat :=
  cs.foldl (fun a c => 10 * a + (c - 48)) 0

/-- `strconv.Atoi` on the bytes of a short string: an optional leading '+'
(43) or '-' (45) followed by at least one ASCII decimal digit; anything else
is a syntax error (`none`).  The inputs in this package are at most four
characters, so `int` overflow cannot occur. -/
def atoi (cs : List Nat) : Option Int :=
  match cs with
  | [] => none
  | c :: rest =>
    if c = 43 then
      if rest ≠ [] ∧ rest.all isDigitChar then some (parseDigits rest : Int) else none
    else if c = 45 then
      if rest ≠ [] ∧ rest.all isDigitChar then some (-(parseDigits rest : Int)) else none
    else
      if (c :: rest).all isDigitChar then some (parseDigits (c :: rest) : Int) else none

/-- Decimal digits of a natural number, most significant first
(`[0]` for zero); the digit sequence `fmt.Sprintf` `%d` would print. -/
def decDigits (n : Nat) : List Nat :=
  if _h : n < 10 then [n] else decDigits (n / 10) ++ [n % 10]
decreasing_by exact Nat.div_lt_self (by omega) (by omega)

/-- Zero-pad a digit list on the left to at least four digits. -/
def pad4 (ds : List Nat) : List Nat :=
  List.replicate (4 - ds.length) 0 ++ ds

/-- `fmt.Sprintf` with verb `%04d` on a non-negative value: the decimal
digits, zero-padded on the left to width four, as ASCII character codes. -/
def fmt04d (n : Nat) : List Nat :=
  (pad4 (decDigits n)).map (· + 48)

/-- `Decode` from mli.go: dispatch on the selector string, check the buffer
size against the variant's expected size, then interpret the bytes. -/
def Decode (key : String) (b : Bytes) : Except MLIErr Int :=
  if key = MLI2I then
    if b.length ≠ Size2I then .error .byteSize
    else
      let n : Int := beNat b
      if n = 0 then .ok 0
      else
        let n := n - Size2I
        if n < 0 then .error .length else .ok n
  else if key = MLI2E then
    if b.length ≠ Size2E then .error .byteSize
    else .ok (beNat b)
  else if key = MLI4I then
    if b.length ≠ Size4I then .error .byteSize
    else
      let n : Int := beNat b
      if n = 0 then .ok 0
      else
        let n := n - Size4I
        if n < 0 then .error .length else .ok n
  else if key = MLI4E then
    if b.length ≠ Size4E then .error .byteSize
    else .ok (beNat b)
  else if key = MLI2EE then
    if b.length ≠ Size2EE then .error .byteSize
    else .ok ((beNat b : Int) + 2)
  else if key = MLI2BCD2 then
    if b.length ≠ Size2BCD2 then .error .byteSize
    else
      match atoi (hexEncode (b.drop 2)) with
      | none => .error .convert
      | some n =>
        if n = 0 then .ok 0
        else
          let n := n - Size2BCD2
          if n < 0 then .error .length else .ok n
  else if key = MLIA4E then
    if b.length ≠ SizeA4E then .error .byteSize
    else
      if b.count 48 = b.length then .ok 0
      else
        match atoi b with
        | none => .error .convert
        | some n => .ok n
  else .error .invalidType

/-- `Encode` from mli.go: reject negative lengths, then dispatch on the
selector string and write the adjusted value in the variant's format. -/
def Encode (key : String) (length : Int) : Except MLIErr Bytes :=
  if length < 0 then .error .length
  else if key = MLI2I then .ok (putUint16 (length + Size2I))
  else if key = MLI2E then .ok (putUint16 length)
  else if key = MLI4I then .ok (putUint32 (length + Size4I))
  else if key = MLI4E then .ok (putUint32 length)
  else if key = MLI2EE then .ok (putUint16 (length - Size2EE))
  else if key = MLI2BCD2 then
    let s := fmt04d (length + Size2BCD2).toNat
    if hexValid s then .ok ([0, 0] ++ hexDecodeBytes s)
    else .error .encodeFormat
  else if key = MLIA4E then
    .ok (hexDecodeBytes (hexEncUpper (fmt04d length.toNat)))
  else .error .invalidType

/-- The seven valid selectors. -/
def mliKeys : List String := [MLI2I, MLI2E, MLI4I, MLI4E, MLI2EE, MLI2BCD2, MLIA4E]

/-- The fixed byte width of each variant (0 for unknown selectors). -/
def width (key : String) : Nat :=
  if key = MLI2I then Size2I
  else if key = MLI2E then Size2E
  else if key = MLI4I then Size4I
  else if key = MLI4E then Size4E
  else if key = MLI2EE then Size2EE
  else if key = MLI2BCD2 then Size2BCD2
  else if key = MLIA4E then SizeA4E
  else 0

/-- The representable range of lengths for each variant: the lengths the
variant can encode so that the encoded header decodes back to the same value.
Binary inclusive variants lose the top `width` values of the field to the
inclusive adjustment; 2EE requires the 2-byte embedded header to be counted
(so lengths below 2 are out of range) and reaches 65537; the decimal text
variants are bounded by four digits, 2BCD2 after its +4 adjustment. -/
def validLength (key : String) (L : Int) : Bool :=
  if key = MLI2I then 0 ≤ L ∧ L ≤ 65533
  else if key = MLI2E then 0 ≤ L ∧ L ≤ 65535
  else if key = MLI4I then 0 ≤ L ∧ L ≤ 4294967291
  else if key = MLI4E then 0 ≤ L ∧ L ≤ 4294967295
  else if key = MLI2EE then 2 ≤ L ∧ L ≤ 65537
  else if key = MLI2BCD2 then 0 ≤ L ∧ L ≤ 9995
  else if key = MLIA4E then 0 ≤ L ∧ L ≤ 9999
  else False

/-- The byte strings `strconv.Atoi` accepts: an optional leading ASCII sign
character ('+' or '-') followed by at least one ASCII decimal digit. -/
def isSignedDecimal (cs : List Nat) : Bool :=
  match cs with
  | [] => false
  | c :: rest =>
    if c = 43 ∨ c = 45 then decide (rest ≠ []) && rest.all isDigitChar
    else isDigitChar c && rest.all isDigitChar

/-- A list of length four is an explicit four-element list. -/
theorem list_len_four {α : Type} (l : List α) (h : l.length = 4) :
    ∃ a0 a1 a2 a3, l = [a0, a1, a2, a3] := by
  rcases l with _ | ⟨a0, _ | ⟨a1, _ | ⟨a2, _ | ⟨a3, _ | ⟨a4, t⟩⟩⟩⟩⟩
  · simp at h
  · simp at h
  · simp at h
  · simp at h
  · exact ⟨a0, a1, a2, a3, rfl⟩
  · simp only [List.length_cons] at h
    omega

/-! ### Branch equations

One equation per selector, obtained by reducing the string dispatch. -/

theorem Decode2I_eq (b : Bytes) :
    Decode MLI2I b =
      if b.length ≠ 2 then .error .byteSize
      else if (beNat b : Int) = 0 then .ok 0
      else if (beNat b : Int) - 2 < 0 then .error .length
      else .ok ((beNat b : Int) - 2) := rfl

theorem Decode2E_eq (b : Bytes) :
    Decode MLI2E b =
      if b.length ≠ 2 then .error .byteSize else .ok (beNat b) := rfl

theorem Decode4I_eq (b : Bytes) :
    Decode MLI4I b =
      if b.length ≠ 4 then .error .byteSize
      else if (beNat b : Int) = 0 then .ok 0
      else if (beNat b : Int) - 4 < 0 then .error .length
      else .ok ((beNat b : Int) - 4) := rfl

theorem Decode4E_eq (b : Bytes) :
    Decode MLI4E b =
      if b.length ≠ 4 then .error .byteSize else .ok (beNat b) := rfl

theorem Decode2EE_eq (b : Bytes) :
    Decode MLI2EE b =
      if b.length ≠ 2 then .error .byteSize else .ok ((beNat b : Int) + 2) := rfl

theorem Decode2BCD2_eq (b : Bytes) :
    Decode MLI2BCD2 b =
      if b.length ≠ 4 then .error .byteSize
      else
        match atoi (hexEncode (b.drop 2)) with
        | none => .error .convert
        | some n =>
          if n = 0 then .ok 0
          else if n - 4 < 0 then .error .length
          else .ok (n - 4) := rfl

theorem DecodeA4E_eq (b : Bytes) :
    Decode MLIA4E b =
      if b.length ≠ 4 then .error .byteSize
      else if b.count 48 = b.length then .ok 0
      else
        match atoi b with
        | none => .error .convert
        | some n => .ok n := rfl

theorem Decode_unknown_eq (key : String) (b : Bytes)
    (h1 : key ≠ MLI2I) (h2 : key ≠ MLI2E) (h3 : key ≠ MLI4I) (h4 : key ≠ MLI4E)
    (h5 : key ≠ MLI2EE) (h6 : key ≠ MLI2BCD2) (h7 : key ≠ MLIA4E) :
    Decode key b = .error .invalidType := by
  simp only [Decode]
  rw [if_neg h1, if_neg h2, if_neg h3, if_neg h4, if_neg h5, if_neg h6, if_neg h7]

theorem Encode2I_eq (L : Int) :
    Encode MLI2I L =
      if L < 0 then .error .length else .ok (putUint16 (L + 2)) := rfl

theorem Encode2E_eq (L : Int) :
    Encode MLI2E L =
      if L < 0 then .error .length else .ok (putUint16 L) := rfl

theorem Encode4I_eq (L : Int) :
    Encode MLI4I L =
      if L < 0 then .error .length else .ok (putUint32 (L + 4)) := rfl

theorem Encode4E_eq (L : Int) :
    Encode MLI4E L =
      if L < 0 then .error .length else .ok (putUint32 L) := rfl

theorem Encode2EE_eq (L : Int) :
    Encode MLI2EE L =
      if L < 0 then .error .length else .ok (putUint16 (L - 2)) := rfl

theorem Encode2BCD2_eq (L : Int) :
    Encode MLI2BCD2 L =
      if L < 0 then .error .length
      else if hexValid (fmt04d (L + 4).toNat) then
        .ok ([0, 0] ++ hexDecodeBytes (fmt04d (L + 4).toNat))
      else .error .encodeFormat := rfl

theorem EncodeA4E_eq (L : Int) :
    Encode MLIA4E L =
      if L < 0 then .error .length
      else .ok (hexDecodeBytes (hexEncUpper (fmt04d L.toNat))) := rfl

theorem Encode_unknown_eq (key : String) (L : Int) (h0 : ¬ L < 0)
    (h1 : key ≠ MLI2I) (h2 : key ≠ MLI2E) (h3 : key ≠ MLI4I) (h4 : key ≠ MLI4E)
    (h5 : key ≠ MLI2EE) (h6 : key ≠ MLI2BCD2) (h7 : key ≠ MLIA4E) :
    Encode key L = .error .invalidType := by
  simp only [Encode]
  rw [if_neg h0, if_neg h1, if_neg h2, if_neg h3, if_neg h4, if_neg h5, if_neg h6,
    if_neg h7]

/-! ### Decimal digit formatting -/

theorem decDigits_lt (n : Nat) (h : n < 10) : decDigits n = [n] := by
  rw [decDigits]
  exact dif_pos h

theorem decDigits_ge (n : Nat) (h : 10 ≤ n) :
    decDigits n = decDigits (n / 10) ++ [n % 10] := by
  rw [decDigits]
  exact dif_neg (by omega)

theorem decDigits_lt_ten (n : Nat) : ∀ d ∈ decDigits n, d < 10 := by
  induction n using Nat.strong_induction_on with
  | _ n ih =>
    by_cases h : n < 10
    · rw [decDigits_lt n h]
      intro d hd
      simp only [List.mem_singleton] at hd
      omega
    · rw [decDigits_ge n (by omega)]
      intro d hd
      rcases List.mem_append.mp hd with h1 | h1
      · exact ih (n / 10) (Nat.div_lt_self (by omega) (by omega)) d h1
      · simp only [List.mem_singleton] at h1
        omega

theorem decDigits_len_pos (n : Nat) : 1 ≤ (decDigits n).length := by
  by_cases h : n < 10
  · rw [decDigits_lt n h]
    simp
  · rw [decDigits_ge n (by omega)]
    simp

theorem decDigits_len_ge5 (n : Nat) (h : 10000 ≤ n) : 5 ≤ (decDigits n).length := by
  rw [decDigits_ge n (by omega), List.length_append]
  rw [decDigits_ge (n / 10) (by omega), List.length_append]
  rw [decDigits_ge (n / 10 / 10) (by omega), List.length_append]
  rw [decDigits_ge (n / 10 / 10 / 10) (by omega), List.length_append]
  have := decDigits_len_pos (n / 10 / 10 / 10 / 10)
  simp only [List.length_singleton]
  omega

theorem digits4 (n : Nat) (h : n < 10000) :
    pad4 (decDigits n) = [n / 1000, n / 100 % 10, n / 10 % 10, n % 10] := by
  have e2 : n / 10 / 10 = n / 100 := by omega
  have e3 : n / 100 / 10 = n / 1000 := by omega
  rcases Nat.lt_or_ge n 10 with h1 | h1
  · rw [decDigits_lt n h1]
    simp only [pad4, List.length_singleton]
    norm_num [List.replicate, List.cons.injEq] <;> omega
  rcases Nat.lt_or_ge n 100 with h2 | h2
  · rw [decDigits_ge n h1, decDigits_lt (n / 10) (by omega)]
    simp only [pad4, List.length_append, List.length_singleton]
    norm_num [List.replicate, List.cons.injEq] <;> omega
  rcases Nat.lt_or_ge n 1000 with h3 | h3
  · rw [decDigits_ge n (by omega), decDigits_ge (n / 10) (by omega), e2,
      decDigits_lt (n / 100) (by omega)]
    simp only [pad4, List.length_append, List.length_singleton]
    norm_num [List.replicate, List.cons.injEq] <;> omega
  · rw [decDigits_ge n (by omega), decDigits_ge (n / 10) (by omega), e2,
      decDigits_ge (n / 100) (by omega), e3, decDigits_lt (n / 1000) (by omega)]
    simp only [pad4, List.length_append, List.length_singleton]
    norm_num [List.replicate, List.cons.injEq] <;> omega

theorem fmt04d_eq (n : Nat) (h : n < 10000) :
    fmt04d n = [n / 1000 + 48, n / 100 % 10 + 48, n / 10 % 10 + 48, n % 10 + 48] := by
  rw [fmt04d, digits4 n h]
  rfl

theorem fmt04d_bytes (n : Nat) : ∀ x ∈ fmt04d n, x < 256 := by
  intro x hx
  rw [fmt04d] at hx
  simp only [List.mem_map] at hx
  obtain ⟨d, hd, rfl⟩ := hx
  simp only [pad4] at hd
  have hd10 : d < 10 := by
    rcases List.mem_append.mp hd with h1 | h1
    · have := List.eq_of_mem_replicate h1
      omega
    · exact decDigits_lt_ten n d h1
  omega

theorem fmt04d_len_big (n : Nat) (h : 10000 ≤ n) : 4 < (fmt04d n).length := by
  have h5 := decDigits_len_ge5 n h
  rw [fmt04d]
  simp only [List.length_map, pad4, List.length_append, List.length_replicate]
  omega

/-! ### Hex characters and strings -/

theorem hexDigitVal_digit (a : Nat) (h : a ≤ 9) : hexDigitVal (a + 48) = some a := by
  rw [hexDigitVal, if_pos ⟨by omega, by omega⟩]
  congr 1 <;> omega

theorem hexCharLower_digit (a : Nat) (h : a ≤ 9) : hexCharLower a = a + 48 := by
  rw [hexCharLower, if_pos (by omega)]
  omega

theorem hexDigitVal_upper (n : Nat) (h : n < 16) :
    hexDigitVal (hexCharUpper n) = some n := by
  rcases Nat.lt_or_ge n 10 with h1 | h1
  · rw [hexCharUpper, if_pos h1, hexDigitVal, if_pos ⟨by omega, by omega⟩]
    congr 1
    omega
  · rw [hexCharUpper, if_neg (by omega), hexDigitVal, if_neg (by omega),
      if_neg (by omega), if_pos ⟨by omega, by omega⟩]
    congr 1
    omega

theorem hexDecodeBytes_cons (c1 c2 : Nat) (rest : List Nat) (a b : Nat)
    (h1 : hexDigitVal c1 = some a) (h2 : hexDigitVal c2 = some b) :
    hexDecodeBytes (c1 :: c2 :: rest) = (16 * a + b) :: hexDecodeBytes rest := by
  rw [hexDecodeBytes, h1, h2]

theorem hexDecode_hexEncUpper (bs : Bytes) (h : ∀ x ∈ bs, x < 256) :
    hexDecodeBytes (hexEncUpper bs) = bs := by
  induction bs with
  | nil => rfl
  | cons x rest ih =>
    have hx : x < 256 := h x (List.mem_cons_self x rest)
    have e : hexEncUpper (x :: rest) =
        hexCharUpper (x / 16) :: hexCharUpper (x % 16) :: hexEncUpper rest := rfl
    rw [e, hexDecodeBytes_cons _ _ _ _ _ (hexDigitVal_upper (x / 16) (by omega))
      (hexDigitVal_upper (x % 16) (by omega))]
    rw [ih (fun y hy => h y (List.mem_cons_of_mem x hy))]
    congr 1 <;> omega

theorem hexValid_four (a b c d : Nat) (ha : a ≤ 9) (hb : b ≤ 9) (hc : c ≤ 9)
    (hd : d ≤ 9) : hexValid [a + 48, b + 48, c + 48, d + 48] = true := by
  rw [hexValid, hexDigitVal_digit a ha, hexDigitVal_digit b hb,
    hexValid, hexDigitVal_digit c hc, hexDigitVal_digit d hd]
  rfl

theorem hexDecodeBytes_four (a b c d : Nat) (ha : a ≤ 9) (hb : b ≤ 9) (hc : c ≤ 9)
    (hd : d ≤ 9) :
    hexDecodeBytes [a + 48, b + 48, c + 48, d + 48] = [16 * a + b, 16 * c + d] := by
  rw [hexDecodeBytes, hexDigitVal_digit a ha, hexDigitVal_digit b hb]
  rw [hexDecodeBytes, hexDigitVal_digit c hc, hexDigitVal_digit d hd]
  rfl

theorem hexEncode_two (x y : Nat) :
    hexEncode [x, y] =
      [hexCharLower (x / 16), hexCharLower (x % 16),
       hexCharLower (y / 16), hexCharLower (y % 16)] := rfl

/-! ### Atoi -/

theorem parseDigits_four (a b c d : Nat) :
    parseDigits [a + 48, b + 48, c + 48, d + 48] = 1000 * a + 100 * b + 10 * c + d := by
  simp only [parseDigits, List.foldl]
  omega

theorem isDigitChar_add (a : Nat) (h : a ≤ 9) : isDigitChar (a + 48) = true := by
  simp only [isDigitChar, Bool.and_eq_true, decide_eq_true_eq]
  omega

theorem atoi_four_digits (a b c d : Nat) (ha : a ≤ 9) (hb : b ≤ 9) (hc : c ≤ 9)
    (hd : d ≤ 9) :
    atoi [a + 48, b + 48, c + 48, d + 48] =
      some ((1000 * a + 100 * b + 10 * c + d : Nat) : Int) := by
  rw [atoi]
  rw [if_neg (by omega), if_neg (by omega)]
  rw [if_pos]
  · rw [parseDigits_four a b c d]
  · simp only [List.all_cons, List.all_nil, Bool.and_eq_true,
      isDigitChar_add a ha, isDigitChar_add b hb, isDigitChar_add c hc,
      isDigitChar_add d hd, Bool.and_true, and_self]

/-- Any value `atoi` extracts from a lower-case hex string is non-negative:
the first character of such a string is never a sign character. -/
theorem atoi_hexEncode_nonneg (xs : Bytes) (n : Int)
    (h : atoi (hexEncode xs) = some n) : 0 ≤ n := by
  cases xs with
  | nil => simp [hexEncode, atoi] at h
  | cons x rest =>
    have e : hexEncode (x :: rest) =
        hexCharLower (x / 16) :: hexCharLower (x % 16) :: hexEncode rest := rfl
    rw [e, atoi] at h
    have hne : hexCharLower (x / 16) ≠ 43 ∧ hexCharLower (x / 16) ≠ 45 := by
      rw [hexCharLower]
      split <;> omega
    rw [if_neg hne.1, if_neg hne.2] at h
    split at h
    · cases h
      omega
    · cases h

/-- Any negative value `atoi` extracts comes from a string whose first
character is the minus sign. -/
theorem atoi_neg_head (cs : List Nat) (n : Int) (h : atoi cs = some n)
    (hn : n < 0) : cs.headD 0 = 45 := by
  cases cs with
  | nil => simp [atoi] at h
  | cons c rest =>
    rw [atoi] at h
    by_cases h43 : c = 43
    · rw [if_pos h43] at h
      split at h
      · cases h
        omega
      · cases h
    · rw [if_neg h43] at h
      by_cases h45 : c = 45
      · simpa using h45
      · rw [if_neg h45] at h
        split at h
        · cases h
          omega
        · cases h

/-- `atoi` succeeds exactly on optionally-signed decimal strings. -/
theorem atoi_isSome (cs : List Nat) : (atoi cs).isSome = isSignedDecimal cs := by
  cases cs with
  | nil => rfl
  | cons c rest =>
    rw [atoi, isSignedDecimal]
    by_cases h43 : c = 43
    · rw [if_pos h43, if_pos (Or.inl h43)]
      split_ifs with hd
      · simp [hd.1, hd.2]
      · by_cases he : rest = []
        · simp [he]
        · simp only [not_and] at hd
          have := hd he
          simp only [Option.isSome_none, Bool.not_eq_true] at *
          simp [he, this]
    · rw [if_neg h43]
      by_cases h45 : c = 45
      · rw [if_pos h45, if_pos (Or.inr h45)]
        split_ifs with hd
        · simp [hd.1, hd.2]
        · by_cases he : rest = []
          · simp [he]
          · simp only [not_and] at hd
            have := hd he
            simp only [Option.isSome_none, Bool.not_eq_true] at *
            simp [he, this]
      · rw [if_neg h45, if_neg (by tauto : ¬ (c = 43 ∨ c = 45))]
        split_ifs with hd
        · rw [List.all_cons] at hd
          simp [hd]
        · rw [List.all_cons] at hd
          simp only [Option.isSome_none, Bool.not_eq_true] at *
          simp [hd]

/-- `atoi` on a non-empty all-digit string returns its decimal value. -/
theorem atoi_all_digits (cs : List Nat) (hne : cs ≠ [])
    (h : cs.all isDigitChar = true) : atoi cs = some (parseDigits cs : Int) := by
  cases cs with
  | nil => exact absurd rfl hne
  | cons c rest =>
    have hc : isDigitChar c = true := by
      rw [List.all_cons, Bool.and_eq_true] at h
      exact h.1
    simp only [isDigitChar, Bool.and_eq_true, decide_eq_true_eq] at hc
    rw [atoi, if_neg (by omega), if_neg (by omega), if_pos h]

/-! ### Big-endian words -/

theorem putUint16_len (n : Int) : (putUint16 n).length = 2 := rfl

theorem putUint32_len (n : Int) : (putUint32 n).length = 4 := rfl

theorem beNat_putUint16 (n : Int) : (beNat (putUint16 n) : Int) = n % 65536 := by
  simp only [putUint16, beNat, List.foldl]
  have h0 : 0 ≤ n % 65536 := Int.emod_nonneg n (by norm_num)
  have h1 : n % 65536 < 65536 := Int.emod_lt_of_pos n (by norm_num)
  push_cast
  omega

theorem beNat_putUint32 (n : Int) : (beNat (putUint32 n) : Int) = n % 4294967296 := by
  simp only [putUint32, beNat, List.foldl]
  have h0 : 0 ≤ n % 4294967296 := Int.emod_nonneg n (by norm_num)
  have h1 : n % 4294967296 < 4294967296 := Int.emod_lt_of_pos n (by norm_num)
  push_cast
  omega

/-! ### Round trips, one per variant -/

theorem roundtrip2I (L : Int) (h0 : 0 ≤ L) (h1 : L ≤ 65533) :
    (Encode MLI2I L).bind (Decode MLI2I) = .ok L := by
  rw [Encode2I_eq, if_neg (by omega)]
  show Decode MLI2I (putUint16 (L + 2)) = .ok L
  rw [Decode2I_eq, if_neg (by simp [putUint16]), beNat_putUint16,
    if_neg (by omega), if_neg (by omega)]
  exact congrArg Except.ok (by omega)

theorem roundtrip2E (L : Int) (h0 : 0 ≤ L) (h1 : L ≤ 65535) :
    (Encode MLI2E L).bind (Decode MLI2E) = .ok L := by
  rw [Encode2E_eq, if_neg (by omega)]
  show Decode MLI2E (putUint16 L) = .ok L
  rw [Decode2E_eq, if_neg (by simp [putUint16]), beNat_putUint16]
  exact congrArg Except.ok (by omega)

theorem roundtrip4I (L : Int) (h0 : 0 ≤ L) (h1 : L ≤ 4294967291) :
    (Encode MLI4I L).bind (Decode MLI4I) = .ok L := by
  rw [Encode4I_eq, if_neg (by omega)]
  show Decode MLI4I (putUint32 (L + 4)) = .ok L
  rw [Decode4I_eq, if_neg (by simp [putUint32]), beNat_putUint32,
    if_neg (by omega), if_neg (by omega)]
  exact congrArg Except.ok (by omega)

theorem roundtrip4E (L : Int) (h0 : 0 ≤ L) (h1 : L ≤ 4294967295) :
    (Encode MLI4E L).bind (Decode MLI4E) = .ok L := by
  rw [Encode4E_eq, if_neg (by omega)]
  show Decode MLI4E (putUint32 L) = .ok L
  rw [Decode4E_eq, if_neg (by simp [putUint32]), beNat_putUint32]
  exact congrArg Except.ok (by omega)

theorem roundtrip2EE (L : Int) (h0 : 2 ≤ L) (h1 : L ≤ 65537) :
    (Encode MLI2EE L).bind (Decode MLI2EE) = .ok L := by
  rw [Encode2EE_eq, if_neg (by omega)]
  show Decode MLI2EE (putUint16 (L - 2)) = .ok L
  rw [Decode2EE_eq, if_neg (by simp [putUint16]), beNat_putUint16]
  exact congrArg Except.ok (by omega)

theorem roundtrip2BCD2 (L : Int) (h0 : 0 ≤ L) (h1 : L ≤ 9995) :
    (Encode MLI2BCD2 L).bind (Decode MLI2BCD2) = .ok L := by
  rw [Encode2BCD2_eq, if_neg (by omega)]
  set m := (L + 4).toNat with hm
  have hn : m < 10000 := by omega
  have ha : m / 1000 ≤ 9 := by omega
  have hb : m / 100 % 10 ≤ 9 := by omega
  have hc : m / 10 % 10 ≤ 9 := by omega
  have hd : m % 10 ≤ 9 := by omega
  rw [fmt04d_eq m hn, if_pos (hexValid_four _ _ _ _ ha hb hc hd),
    hexDecodeBytes_four _ _ _ _ ha hb hc hd]
  show Decode MLI2BCD2
      [0, 0, 16 * (m / 1000) + m / 100 % 10, 16 * (m / 10 % 10) + m % 10] = .ok L
  rw [Decode2BCD2_eq, if_neg (by simp)]
  have hdrop :
      ([0, 0, 16 * (m / 1000) + m / 100 % 10, 16 * (m / 10 % 10) + m % 10] : Bytes).drop 2
        = [16 * (m / 1000) + m / 100 % 10, 16 * (m / 10 % 10) + m % 10] := rfl
  rw [hdrop, hexEncode_two]
  have e1 : (16 * (m / 1000) + m / 100 % 10) / 16 = m / 1000 := by omega
  have e2 : (16 * (m / 1000) + m / 100 % 10) % 16 = m / 100 % 10 := by omega
  have e3 : (16 * (m / 10 % 10) + m % 10) / 16 = m / 10 % 10 := by omega
  have e4 : (16 * (m / 10 % 10) + m % 10) % 16 = m % 10 := by omega
  rw [e1, e2, e3, e4, hexCharLower_digit _ ha, hexCharLower_digit _ hb,
    hexCharLower_digit _ hc, hexCharLower_digit _ hd,
    atoi_four_digits _ _ _ _ ha hb hc hd]
  have hv : (1000 * (m / 1000) + 100 * (m / 100 % 10) + 10 * (m / 10 % 10) + m % 10 : Nat)
      = m := by omega
  rw [hv]
  show (if (m : Int) = 0 then (Except.ok 0 : Except MLIErr Int)
      else if (m : Int) - 4 < 0 then Except.error MLIErr.length
      else Except.ok ((m : Int) - 4)) = Except.ok L
  rw [if_neg (by omega), if_neg (by omega)]
  exact congrArg Except.ok (by omega)

theorem roundtripA4E (L : Int) (h0 : 0 ≤ L) (h1 : L ≤ 9999) :
    (Encode MLIA4E L).bind (Decode MLIA4E) = .ok L := by
  rw [EncodeA4E_eq, if_neg (by omega), hexDecode_hexEncUpper _ (fmt04d_bytes _)]
  show Decode MLIA4E (fmt04d L.toNat) = .ok L
  by_cases hz : L = 0
  · subst hz
    show Decode MLIA4E (fmt04d 0) = .ok 0
    rw [fmt04d_eq 0 (by norm_num)]
    rfl
  · set m := L.toNat with hm
    have hn : m < 10000 := by omega
    have ha : m / 1000 ≤ 9 := by omega
    have hb : m / 100 % 10 ≤ 9 := by omega
    have hc : m / 10 % 10 ≤ 9 := by omega
    have hd : m % 10 ≤ 9 := by omega
    rw [fmt04d_eq m hn, DecodeA4E_eq, if_neg (by simp)]
    have hcount :
        ¬ (([m / 1000 + 48, m / 100 % 10 + 48, m / 10 % 10 + 48, m % 10 + 48] : Bytes).count 48
          = ([m / 1000 + 48, m / 100 % 10 + 48, m / 10 % 10 + 48, m % 10 + 48] : Bytes).length) := by
      rw [List.count_eq_length]
      intro hall
      have q1 := hall (m / 1000 + 48) (by simp)
      have q2 := hall (m / 100 % 10 + 48) (by simp)
      have q3 := hall (m / 10 % 10 + 48) (by simp)
      have q4 := hall (m % 10 + 48) (by simp)
      omega
    rw [if_neg hcount, atoi_four_digits _ _ _ _ ha hb hc hd]
    show Except.ok ((1000 * (m / 1000) + 100 * (m / 100 % 10) + 10 * (m / 10 % 10)
        + m % 10 : Nat) : Int) = Except.ok L
    exact congrArg Except.ok (by omega)

/-! ### The claims -/

/-- C1: for each of the seven variant selectors and every length within that
variant's representable range (`validLength`), decoding the buffer produced
by encoding the length with the same variant returns the length with no
error. -/
theorem decode_encode_roundtrip (key : String) (L : Int)
    (h : validLength key L = true) :
    (Encode key L).bind (Decode key) = .ok L := by
  by_cases k1 : key = MLI2I
  · subst k1
    have h' : 0 ≤ L ∧ L ≤ 65533 := by
      simpa [validLength, MLI2I, MLI2E, MLI4I, MLI4E, MLI2EE, MLI2BCD2, MLIA4E] using h
    exact roundtrip2I L h'.1 h'.2
  by_cases k2 : key = MLI2E
  · subst k2
    have h' : 0 ≤ L ∧ L ≤ 65535 := by
      simpa [validLength, MLI2I, MLI2E, MLI4I, MLI4E, MLI2EE, MLI2BCD2, MLIA4E] using h
    exact roundtrip2E L h'.1 h'.2
  by_cases k3 : key = MLI4I
  · subst k3
    have h' : 0 ≤ L ∧ L ≤ 4294967291 := by
      simpa [validLength, MLI2I, MLI2E, MLI4I, MLI4E, MLI2EE, MLI2BCD2, MLIA4E] using h
    exact roundtrip4I L h'.1 h'.2
  by_cases k4 : key = MLI4E
  · subst k4
    have h' : 0 ≤ L ∧ L ≤ 4294967295 := by
      simpa [validLength, MLI2I, MLI2E, MLI4I, MLI4E, MLI2EE, MLI2BCD2, MLIA4E] using h
    exact roundtrip4E L h'.1 h'.2
  by_cases k5 : key = MLI2EE
  · subst k5
    have h' : 2 ≤ L ∧ L ≤ 65537 := by
      simpa [validLength, MLI2I, MLI2E, MLI4I, MLI4E, MLI2EE, MLI2BCD2, MLIA4E] using h
    exact roundtrip2EE L h'.1 h'.2
  by_cases k6 : key = MLI2BCD2
  · subst k6
    have h' : 0 ≤ L ∧ L ≤ 9995 := by
      simpa [validLength, MLI2I, MLI2E, MLI4I, MLI4E, MLI2EE, MLI2BCD2, MLIA4E] using h
    exact roundtrip2BCD2 L h'.1 h'.2
  by_cases k7 : key = MLIA4E
  · subst k7
    have h' : 0 ≤ L ∧ L ≤ 9999 := by
      simpa [validLength, MLI2I, MLI2E, MLI4I, MLI4E, MLI2EE, MLI2BCD2, MLIA4E] using h
    exact roundtripA4E L h'.1 h'.2
  exfalso
  simp only [validLength] at h
  rw [if_neg k1, if_neg k2, if_neg k3, if_neg k4, if_neg k5, if_neg k6,
    if_neg k7] at h
  simp at h

/-- Witness for C1 at selector 2I and length 43. -/
theorem decode_encode_roundtrip_witness :
    validLength MLI2I 43 = true ∧ (Encode MLI2I 43).bind (Decode MLI2I) = .ok 43 :=
  ⟨by decide, decode_encode_roundtrip MLI2I 43 (by decide)⟩

/-- C2 counterexample: the A4E buffer "-001" (bytes 45 48 48 49) decodes
with no error to the negative value -1, because `strconv.Atoi` accepts a
leading minus sign. -/
theorem decode_negative_counterexample :
    Decode MLIA4E [45, 48, 48, 49] = .ok (-1) ∧ (-1 : Int) < 0 :=
  ⟨rfl, by norm_num⟩

/-- C2 (amended): whenever Decode returns with no error, the returned length
is a non-negative integer, except with selector A4E on a buffer whose first
byte is the ASCII minus sign, which can decode to a negative value with no
error. -/
theorem decode_nonneg_unless_signed (key : String) (b : Bytes) (n : Int)
    (h : Decode key b = .ok n) (hn : n < 0) :
    key = MLIA4E ∧ b.headD 0 = 45 := by
  by_cases k1 : key = MLI2I
  · subst k1
    rw [Decode2I_eq] at h
    by_cases h1 : b.length ≠ 2
    · rw [if_pos h1] at h
      exact Except.noConfusion h
    rw [if_neg h1] at h
    by_cases h2 : (beNat b : Int) = 0
    · rw [if_pos h2] at h
      have he := Except.ok.inj h
      exact absurd hn (by omega)
    rw [if_neg h2] at h
    by_cases h3 : (beNat b : Int) - 2 < 0
    · rw [if_pos h3] at h
      exact Except.noConfusion h
    · rw [if_neg h3] at h
      have he := Except.ok.inj h
      exact absurd hn (by omega)
  by_cases k2 : key = MLI2E
  · subst k2
    rw [Decode2E_eq] at h
    by_cases h1 : b.length ≠ 2
    · rw [if_pos h1] at h
      exact Except.noConfusion h
    · rw [if_neg h1] at h
      have he := Except.ok.inj h
      exact absurd hn (by omega)
  by_cases k3 : key = MLI4I
  · subst k3
    rw [Decode4I_eq] at h
    by_cases h1 : b.length ≠ 4
    · rw [if_pos h1] at h
      exact Except.noConfusion h
    rw [if_neg h1] at h
    by_cases h2 : (beNat b : Int) = 0
    · rw [if_pos h2] at h
      have he := Except.ok.inj h
      exact absurd hn (by omega)
    rw [if_neg h2] at h
    by_cases h3 : (beNat b : Int) - 4 < 0
    · rw [if_pos h3] at h
      exact Except.noConfusion h
    · rw [if_neg h3] at h
      have he := Except.ok.inj h
      exact absurd hn (by omega)
  by_cases k4 : key = MLI4E
  · subst k4
    rw [Decode4E_eq] at h
    by_cases h1 : b.length ≠ 4
    · rw [if_pos h1] at h
      exact Except.noConfusion h
    · rw [if_neg h1] at h
      have he := Except.ok.inj h
      exact absurd hn (by omega)
  by_cases k5 : key = MLI2EE
  · subst k5
    rw [Decode2EE_eq] at h
    by_cases h1 : b.length ≠ 2
    · rw [if_pos h1] at h
      exact Except.noConfusion h
    · rw [if_neg h1] at h
      have he := Except.ok.inj h
      exact absurd hn (by omega)
  by_cases k6 : key = MLI2BCD2
  · subst k6
    rw [Decode2BCD2_eq] at h
    by_cases hlen : b.length ≠ 4
    · rw [if_pos hlen] at h
      exact Except.noConfusion h
    rw [if_neg hlen] at h
    rcases hv : atoi (hexEncode (b.drop 2)) with _ | v
    · rw [hv] at h
      exact Except.noConfusion h
    · rw [hv] at h
      have hv0 : 0 ≤ v := atoi_hexEncode_nonneg _ _ hv
      have h' : (if v = 0 then (Except.ok 0 : Except MLIErr Int)
          else if v - 4 < 0 then .error .length else .ok (v - 4)) = .ok n := h
      by_cases hz : v = 0
      · rw [if_pos hz] at h'
        have he := Except.ok.inj h'
        exact absurd hn (by omega)
      rw [if_neg hz] at h'
      by_cases hneg : v - 4 < 0
      · rw [if_pos hneg] at h'
        exact Except.noConfusion h'
      · rw [if_neg hneg] at h'
        have he := Except.ok.inj h'
        exact absurd hn (by omega)
  by_cases k7 : key = MLIA4E
  · subst k7
    rw [DecodeA4E_eq] at h
    by_cases hlen : b.length ≠ 4
    · rw [if_pos hlen] at h
      exact Except.noConfusion h
    rw [if_neg hlen] at h
    by_cases hcnt : b.count 48 = b.length
    · rw [if_pos hcnt] at h
      have he := Except.ok.inj h
      exact absurd hn (by omega)
    rw [if_neg hcnt] at h
    rcases hv : atoi b with _ | v
    · rw [hv] at h
      exact Except.noConfusion h
    · rw [hv] at h
      have h' : (Except.ok v : Except MLIErr Int) = .ok n := h
      have he : v = n := Except.ok.inj h'
      subst he
      exact ⟨rfl, atoi_neg_head b v hv hn⟩
  rw [Decode_unknown_eq key b k1 k2 k3 k4 k5 k6 k7] at h
  exact Except.noConfusion h

/-- Witness for C2's amended statement at the counterexample input. -/
theorem decode_nonneg_unless_signed_witness :
    MLIA4E = MLIA4E ∧ ([45, 48, 48, 49] : Bytes).headD 0 = 45 :=
  decode_nonneg_unless_signed MLIA4E [45, 48, 48, 49] (-1) rfl (by norm_num)

/-- C3 counterexample: the A4E buffer "+043" (bytes 43 48 52 51) is not all
decimal digits, yet Decode succeeds with value 43 instead of failing with the
decode format error, because `strconv.Atoi` accepts a leading sign. -/
theorem a4e_format_counterexample :
    Decode MLIA4E [43, 48, 52, 51] = .ok 43 ∧
      ([43, 48, 52, 51] : Bytes).all isDigitChar = false :=
  ⟨rfl, rfl⟩

/-- C3 (amended): for a 4-byte A4E buffer that is not all '0', Decode fails
with the decode format error iff the bytes are not an optionally-signed
decimal string (optional leading '+' or '-', then at least one digit — what
`strconv.Atoi` accepts); when the bytes are all decimal digits, Decode
returns the parsed base-10 integer with no error. -/
theorem a4e_decode_format (b : Bytes) (hlen : b.length = 4)
    (h0 : ¬ b.count 48 = b.length) :
    (Decode MLIA4E b = .error .convert ↔ isSignedDecimal b = false) ∧
    (b.all isDigitChar = true → Decode MLIA4E b = .ok (parseDigits b : Int)) := by
  have hne : b ≠ [] := by
    intro he
    rw [he] at hlen
    simp at hlen
  constructor
  · rcases hv : atoi b with _ | v
    · have hD : Decode MLIA4E b = .error .convert := by
        rw [DecodeA4E_eq, if_neg (by omega), if_neg h0, hv]
      have hs : isSignedDecimal b = false := by
        rw [← atoi_isSome, hv]
        rfl
      simp [hD, hs]
    · have hD : Decode MLIA4E b = .ok v := by
        rw [DecodeA4E_eq, if_neg (by omega), if_neg h0, hv]
      have hs : isSignedDecimal b = true := by
        rw [← atoi_isSome, hv]
        rfl
      simp [hD, hs]
  · intro hall
    rw [DecodeA4E_eq, if_neg (by omega), if_neg h0, atoi_all_digits b hne hall]

/-- Witness for C3's amended statement at the buffer "0043". -/
theorem a4e_decode_format_witness :
    (Decode MLIA4E [48, 48, 52, 51] = .error .convert ↔
      isSignedDecimal [48, 48, 52, 51] = false) ∧
    (([48, 48, 52, 51] : Bytes).all isDigitChar = true →
      Decode MLIA4E [48, 48, 52, 51] = .ok (parseDigits [48, 48, 52, 51] : Int)) :=
  a4e_decode_format [48, 48, 52, 51] rfl (by decide)

/-- C4: for each of the seven selectors, Decode rejects any buffer whose
length differs from the variant's width with the byte-size error; the
statement quantifies over every buffer of the wrong length, so the result
never depends on the buffer's contents. -/
theorem decode_size_mismatch (key : String) (hk : key ∈ mliKeys) (b : Bytes)
    (hb : b.length ≠ width key) : Decode key b = .error .byteSize := by
  simp only [mliKeys, List.mem_cons, List.not_mem_nil, or_false] at hk
  rcases hk with rfl | rfl | rfl | rfl | rfl | rfl | rfl
  · rw [Decode2I_eq]
    exact if_pos hb
  · rw [Decode2E_eq]
    exact if_pos hb
  · rw [Decode4I_eq]
    exact if_pos hb
  · rw [Decode4E_eq]
    exact if_pos hb
  · rw [Decode2EE_eq]
    exact if_pos hb
  · rw [Decode2BCD2_eq]
    exact if_pos hb
  · rw [DecodeA4E_eq]
    exact if_pos hb

/-- Witness for C4: a 3-byte buffer fed to the 2-byte 2I decoder. -/
theorem decode_size_mismatch_witness :
    Decode MLI2I [0, 0, 0] = .error .byteSize :=
  decode_size_mismatch MLI2I (by decide) [0, 0, 0] (by decide)

/-- C5: Encode rejects every negative length with the length error before
any selector-specific logic, for every selector string — known or not. -/
theorem encode_negative_rejected (key : String) (L : Int) (h : L < 0) :
    Encode key L = .error .length := by
  simp only [Encode]
  rw [if_pos h]

/-- Witness for C5: a negative length with an unknown selector still yields
the length error, not the unknown-variant error. -/
theorem encode_negative_rejected_witness :
    Encode "bogus" (-1) = .error .length :=
  encode_negative_rejected "bogus" (-1) (by norm_num)

/-- C6: decoding 2I (and 4I) interprets the buffer big-endian; a raw value
of zero returns 0 without subtracting the width, a raw value strictly below
the width fails with the length error, and otherwise the width is
subtracted; in particular bytes 00 01 fail as 2I with the length error. -/
theorem inclusive_decode_semantics :
    (∀ b : Bytes, b.length = 2 →
      Decode MLI2I b =
        (if (beNat b : Int) = 0 then .ok 0
         else if (beNat b : Int) < 2 then .error .length
         else .ok ((beNat b : Int) - 2))) ∧
    (∀ b : Bytes, b.length = 4 →
      Decode MLI4I b =
        (if (beNat b : Int) = 0 then .ok 0
         else if (beNat b : Int) < 4 then .error .length
         else .ok ((beNat b : Int) - 4))) ∧
    Decode MLI2I [0, 1] = .error .length := by
  refine ⟨?_, ?_, rfl⟩
  · intro b hb
    rw [Decode2I_eq, if_neg (by omega)]
    by_cases hz : (beNat b : Int) = 0
    · rw [if_pos hz, if_pos hz]
    · rw [if_neg hz, if_neg hz]
      by_cases hlt : (beNat b : Int) - 2 < 0
      · rw [if_pos hlt, if_pos (by omega)]
      · rw [if_neg hlt, if_neg (by omega)]
  · intro b hb
    rw [Decode4I_eq, if_neg (by omega)]
    by_cases hz : (beNat b : Int) = 0
    · rw [if_pos hz, if_pos hz]
    · rw [if_neg hz, if_neg hz]
      by_cases hlt : (beNat b : Int) - 4 < 0
      · rw [if_pos hlt, if_pos (by omega)]
      · rw [if_neg hlt, if_neg (by omega)]

/-- Witness for C6 at the 2-byte buffer 00 05. -/
theorem inclusive_decode_semantics_witness :
    Decode MLI2I [0, 5] =
      (if (beNat [0, 5] : Int) = 0 then .ok 0
       else if (beNat [0, 5] : Int) < 2 then .error .length
       else .ok ((beNat [0, 5] : Int) - 2)) :=
  inclusive_decode_semantics.1 [0, 5] rfl

/-- C7 counterexample: Encode A4E at length 10000 does not fail with a range
error; it returns the 5-byte ASCII buffer "10000" with no error. -/
theorem a4e_encode_overflow_counterexample :
    Encode MLIA4E 10000 = .ok [49, 48, 48, 48, 48] ∧
      ([49, 48, 48, 48, 48] : Bytes).length ≠ SizeA4E := by
  constructor
  · rw [EncodeA4E_eq, if_neg (by norm_num), hexDecode_hexEncUpper _ (fmt04d_bytes _)]
    have h1 : decDigits 10000 = [1, 0, 0, 0, 0] := by
      rw [decDigits_ge 10000 (by norm_num)]
      norm_num
      rw [decDigits_ge 1000 (by norm_num)]
      norm_num
      rw [decDigits_ge 100 (by norm_num)]
      norm_num
      rw [decDigits_ge 10 (by norm_num)]
      norm_num
      rw [decDigits_lt 1 (by norm_num)]
      rfl
    show Except.ok (fmt04d 10000) = _
    rw [fmt04d, h1]
    rfl
  · decide

/-- C7 (amended): for every length ≥ 10000, Encode A4E returns — with no
error — the ASCII decimal digits of the length, a buffer strictly longer
than the variant's 4-byte width, instead of failing with a range error. -/
theorem a4e_encode_overflow (L : Int) (h : 10000 ≤ L) :
    Encode MLIA4E L = .ok (fmt04d L.toNat) ∧ SizeA4E < (fmt04d L.toNat).length :=
  ⟨by rw [EncodeA4E_eq, if_neg (by omega), hexDecode_hexEncUpper _ (fmt04d_bytes _)],
   fmt04d_len_big L.toNat (by omega)⟩

/-- Witness for C7's amended statement at length 10000. -/
theorem a4e_encode_overflow_witness :
    Encode MLIA4E 10000 = .ok (fmt04d (10000 : Int).toNat) ∧
      SizeA4E < (fmt04d (10000 : Int).toNat).length :=
  a4e_encode_overflow 10000 (by norm_num)

/-- C8: for each selector and every length in the variant's representable
range, the buffer Encode returns has exactly the variant's fixed width. -/
theorem encode_fixed_width (key : String) (L : Int) (h : validLength key L = true)
    (b : Bytes) (hb : Encode key L = .ok b) : b.length = width key := by
  by_cases k1 : key = MLI2I
  · subst k1
    have h' : 0 ≤ L ∧ L ≤ 65533 := by
      simpa [validLength, MLI2I, MLI2E, MLI4I, MLI4E, MLI2EE, MLI2BCD2, MLIA4E] using h
    rw [Encode2I_eq, if_neg (by omega)] at hb
    cases hb
    exact putUint16_len _
  by_cases k2 : key = MLI2E
  · subst k2
    have h' : 0 ≤ L ∧ L ≤ 65535 := by
      simpa [validLength, MLI2I, MLI2E, MLI4I, MLI4E, MLI2EE, MLI2BCD2, MLIA4E] using h
    rw [Encode2E_eq, if_neg (by omega)] at hb
    cases hb
    exact putUint16_len _
  by_cases k3 : key = MLI4I
  · subst k3
    have h' : 0 ≤ L ∧ L ≤ 4294967291 := by
      simpa [validLength, MLI2I, MLI2E, MLI4I, MLI4E, MLI2EE, MLI2BCD2, MLIA4E] using h
    rw [Encode4I_eq, if_neg (by omega)] at hb
    cases hb
    exact putUint32_len _
  by_cases k4 : key = MLI4E
  · subst k4
    have h' : 0 ≤ L ∧ L ≤ 4294967295 := by
      simpa [validLength, MLI2I, MLI2E, MLI4I, MLI4E, MLI2EE, MLI2BCD2, MLIA4E] using h
    rw [Encode4E_eq, if_neg (by omega)] at hb
    cases hb
    exact putUint32_len _
  by_cases k5 : key = MLI2EE
  · subst k5
    have h' : 2 ≤ L ∧ L ≤ 65537 := by
      simpa [validLength, MLI2I, MLI2E, MLI4I, MLI4E, MLI2EE, MLI2BCD2, MLIA4E] using h
    rw [Encode2EE_eq, if_neg (by omega)] at hb
    cases hb
    exact putUint16_len _
  by_cases k6 : key = MLI2BCD2
  · subst k6
    have h' : 0 ≤ L ∧ L ≤ 9995 := by
      simpa [validLength, MLI2I, MLI2E, MLI4I, MLI4E, MLI2EE, MLI2BCD2, MLIA4E] using h
    rw [Encode2BCD2_eq, if_neg (by omega)] at hb
    have hn : (L + 4).toNat < 10000 := by omega
    rw [fmt04d_eq _ hn,
      if_pos (hexValid_four _ _ _ _ (by omega) (by omega) (by omega) (by omega)),
      hexDecodeBytes_four _ _ _ _ (by omega) (by omega) (by omega) (by omega)] at hb
    cases hb
    rfl
  by_cases k7 : key = MLIA4E
  · subst k7
    have h' : 0 ≤ L ∧ L ≤ 9999 := by
      simpa [validLength, MLI2I, MLI2E, MLI4I, MLI4E, MLI2EE, MLI2BCD2, MLIA4E] using h
    rw [EncodeA4E_eq, if_neg (by omega),
      hexDecode_hexEncUpper _ (fmt04d_bytes _)] at hb
    cases hb
    rw [fmt04d_eq L.toNat (by omega)]
    rfl
  exfalso
  simp only [validLength] at h
  rw [if_neg k1, if_neg k2, if_neg k3, if_neg k4, if_neg k5, if_neg k6,
    if_neg k7] at h
  simp at h

/-- Witness for C8 at selector 2I and length 43. -/
theorem encode_fixed_width_witness : ([0, 45] : Bytes).length = width MLI2I :=
  encode_fixed_width MLI2I 43 (by decide) [0, 45] rfl

/-- C9: Decode with 2BCD2 never inspects the first two bytes: any two 4-byte
buffers that agree at indices 2 and 3 decode to the same result. -/
theorem bcd2_ignores_reserved_bytes (b1 b2 : Bytes) (h1 : b1.length = 4)
    (h2 : b2.length = 4) (e2 : b1.getD 2 0 = b2.getD 2 0)
    (e3 : b1.getD 3 0 = b2.getD 3 0) :
    Decode MLI2BCD2 b1 = Decode MLI2BCD2 b2 := by
  obtain ⟨a0, a1, a2, a3, rfl⟩ := list_len_four b1 h1
  obtain ⟨c0, c1, c2, c3, rfl⟩ := list_len_four b2 h2
  have e2' : a2 = c2 := by simpa using e2
  have e3' : a3 = c3 := by simpa using e3
  subst e2'
  subst e3'
  rw [Decode2BCD2_eq, Decode2BCD2_eq, if_neg (by simp), if_neg (by simp)]
  have hd1 : List.drop 2 [a0, a1, a2, a3] = [a2, a3] := rfl
  have hd2 : List.drop 2 [c0, c1, a2, a3] = [a2, a3] := rfl
  rw [hd1, hd2]

/-- Witness for C9: two buffers differing only in their first two bytes. -/
theorem bcd2_ignores_reserved_bytes_witness :
    Decode MLI2BCD2 [0, 0, 2, 136] = Decode MLI2BCD2 [255, 1, 2, 136] :=
  bcd2_ignores_reserved_bytes [0, 0, 2, 136] [255, 1, 2, 136] rfl rfl rfl rfl

/-- C10: for every length ≥ 0, the five binary selectors never fail: the
value written is the adjusted length reduced modulo 2^16 (2-byte variants)
or 2^32 (4-byte variants); in particular Encode 2EE 0 succeeds and writes
(0 - 2) mod 2^16, the bytes FF FE. -/
theorem binary_encode_total (L : Int) (h : 0 ≤ L) :
    (∃ b, Encode MLI2I L = .ok b ∧ b.length = 2 ∧ (beNat b : Int) = (L + 2) % 65536) ∧
    (∃ b, Encode MLI2E L = .ok b ∧ b.length = 2 ∧ (beNat b : Int) = L % 65536) ∧
    (∃ b, Encode MLI4I L = .ok b ∧ b.length = 4 ∧
      (beNat b : Int) = (L + 4) % 4294967296) ∧
    (∃ b, Encode MLI4E L = .ok b ∧ b.length = 4 ∧ (beNat b : Int) = L % 4294967296) ∧
    (∃ b, Encode MLI2EE L = .ok b ∧ b.length = 2 ∧ (beNat b : Int) = (L - 2) % 65536) ∧
    Encode MLI2EE 0 = .ok [255, 254] := by
  refine ⟨⟨putUint16 (L + 2), ?_, putUint16_len _, beNat_putUint16 _⟩,
    ⟨putUint16 L, ?_, putUint16_len _, beNat_putUint16 _⟩,
    ⟨putUint32 (L + 4), ?_, putUint32_len _, beNat_putUint32 _⟩,
    ⟨putUint32 L, ?_, putUint32_len _, beNat_putUint32 _⟩,
    ⟨putUint16 (L - 2), ?_, putUint16_len _, beNat_putUint16 _⟩, rfl⟩
  · rw [Encode2I_eq, if_neg (by omega)]
  · rw [Encode2E_eq, if_neg (by omega)]
  · rw [Encode4I_eq, if_neg (by omega)]
  · rw [Encode4E_eq, if_neg (by omega)]
  · rw [Encode2EE_eq, if_neg (by omega)]

/-- Witness for C10 at length 0. -/
theorem binary_encode_total_witness :
    (∃ b, Encode MLI2I 0 = .ok b ∧ b.length = 2 ∧ (beNat b : Int) = (0 + 2) % 65536) ∧
    (∃ b, Encode MLI2E 0 = .ok b ∧ b.length = 2 ∧ (beNat b : Int) = 0 % 65536) ∧
    (∃ b, Encode MLI4I 0 = .ok b ∧ b.length = 4 ∧
      (beNat b : Int) = (0 + 4) % 4294967296) ∧
    (∃ b, Encode MLI4E 0 = .ok b ∧ b.length = 4 ∧ (beNat b : Int) = 0 % 4294967296) ∧
    (∃ b, Encode MLI2EE 0 = .ok b ∧ b.length = 2 ∧ (beNat b : Int) = (0 - 2) % 65536) ∧
    Encode MLI2EE 0 = .ok [255, 254] :=
  binary_encode_total 0 (by norm_num)

end SimpleMLI
